import Mathlib

/-!
Verification of the PoP party coordination service (package `service` of
dedis/student_17_pop) against its specification.

The Go sources are embedded shallowly:

* Attendee public keys (`abstract.Point`) are identified by their canonical
  string form (`p.String()` in the source); since that canonical encoding is
  injective, a point is modelled directly by its canonical string.
* Server identities keep the two fields the embedded code observes: the
  canonical identity string (`si.String()`, the address) used for
  deduplication, and the long-term public key used for the roster aggregate.
* The roster aggregate key lives in the external onet library.
  Modelled from the spec: the glossary defines a roster aggregate public key
  as the sum of its members' keys, which is what `Roster.Aggregate` holds.
* A cryptographic hash is modelled by the exact sequence of tokens written
  into it, so equal write-streams give equal hashes.
* Cryptographic signature checks (`FinalStatement.Verify`, Schnorr
  verification, the BFT signing protocol) are external oracles; the embedded
  functions take them as explicit function parameters.
* Go maps keyed by `string(hash)` become association lists keyed by the hash
  token stream; overwriting insertion is `mapSet`, lookup is `mapGet`.
-/

namespace Pop

/-- An attendee public key, identified by its canonical point string. -/
abbrev Point := String

/-- Canonical string of an attendee key (`p.String()` in the source). -/
def ptStr (p : Point) : String := p

@[simp] theorem ptStr_def (p : Point) : ptStr p = p := rfl

/-- A conode identity: canonical identity string (the address, returned by
`si.String()`) and the long-term public key entering the roster aggregate. -/
structure ServerIdentity where
  address : String
  public : Int
deriving DecidableEq, Repr

/-- Canonical identity string (`si.String()` in onet). -/
def siStr (s : ServerIdentity) : String := s.address

/-- An ordered list of conode identities (`onet.Roster`). -/
structure Roster where
  list : List ServerIdentity
deriving DecidableEq, Repr

/-- Modelled from the spec: the aggregate public key of a roster is the sum
of its members' public keys (spec glossary); it is computed by the external
onet library as `Roster.Aggregate`. -/
def Roster.aggregate (r : Roster) : Int := (r.list.map (fun s => s.public)).sum

/-- A sibling party short description (`ShortDesc`): location and roster. -/
structure ShortDesc where
  location : String
  roster : Roster
deriving DecidableEq, Repr

/-- One token written into a hash: either a string or the marshalled bytes
of a group element (an aggregate key). -/
inductive HashTok where
  | str (s : String)
  | pt (k : Int)
deriving DecidableEq, Repr

/-- A hash value, modelled as the stream of tokens written into it. -/
abbrev Hsh := List HashTok

/-- The tokens the sibling-party loop of `PopDesc.Hash` writes:
for each party in order, its location then its roster aggregate
(service_test.go second part, lines 562-572). -/
def partiesHash : List ShortDesc → List HashTok
  | [] => []
  | party :: rest =>
      HashTok.str party.location :: HashTok.pt party.roster.aggregate :: partiesHash rest

/-- Party description (`PopDesc`). -/
structure PopDesc where
  name : String
  dateTime : String
  location : String
  roster : Roster
  parties : List ShortDesc
deriving DecidableEq, Repr

/-- The party hash `PopDesc.Hash`: name, datetime, location, roster
aggregate, then for each sibling party its location and roster aggregate.
The source guards the loop with `len(p.Parties) > 0`, which is redundant. -/
def PopDesc.hash (p : PopDesc) : Hsh :=
  HashTok.str p.name :: HashTok.str p.dateTime :: HashTok.str p.location ::
    HashTok.pt p.roster.aggregate :: partiesHash p.parties

/-- A collective signature, as the byte slice the source stores. -/
abbrev Sig := List Nat

/-- `FinalStatement`: description, attendee keys, collective signature,
merged flag. -/
structure FinalStatement where
  desc : PopDesc
  attendees : List Point
  signature : Sig
  merged : Bool
deriving DecidableEq, Repr

/-- Status codes of struct.go: WrongHash = 0, NoAttendees = 1,
MergeError = 2, MergeNonFinalized = 3, OK = 4. -/
def popStatusWrongHash : Nat := 0

def popStatusNoAttendees : Nat := 1

def popStatusMergeError : Nat := 2

def popStatusMergeNonFinalized : Nat := 3

def popStatusOK : Nat := 4

/-- Client-visible error codes of struct.go. -/
inductive PopError where
  | wrongPIN
  | internal
  | otherFinals
  | merge
  | timeout
deriving DecidableEq, Repr

/-- Result of a client RPC: a reply value or a client error. -/
inductive RpcResult (α : Type) where
  | ok (a : α)
  | err (e : PopError)
deriving DecidableEq, Repr

/-- Lookup in a Go map keyed by the hash bytes. -/
def mapGet {β : Type} (m : List (Hsh × β)) (k : Hsh) : Option β :=
  (m.find? (fun p => decide (p.1 = k))).map (fun p => p.2)

/-- Overwriting insertion into a Go map keyed by the hash bytes. -/
def mapSet {β : Type} (m : List (Hsh × β)) (k : Hsh) (v : β) : List (Hsh × β) :=
  (k, v) :: m.filter (fun p => decide (p.1 ≠ k))

/-- Insertion into the key set of a Go map whose values are runtime-only
(the per-party `syncMeta` channels). -/
def keySet (m : List Hsh) (k : Hsh) : List Hsh :=
  k :: m.filter (fun x => decide (x ≠ k))

/-- Per-party merge state (`mergeMeta`): observed sibling final statements
keyed by their party hash, and the distribution re-entrancy flag. -/
structure MergeMetaM where
  statementsMap : List (Hsh × FinalStatement)
  distrib : Bool
deriving DecidableEq, Repr

/-- The persisted service state (`saveData`): PIN, linked organizer key,
final statements, merge metadata, and the key set of the runtime-only
`syncMeta` map (its channel contents are not persisted values). -/
structure SaveData where
  pin : String
  public : Option Int
  finals : List (Hsh × FinalStatement)
  mergeMetas : List (Hsh × MergeMetaM)
  syncMetas : List Hsh
deriving DecidableEq, Repr

/-- Roster comparison `Equal` (service_test.go second part, lines 577-593):
false on length mismatch, else every identity of `r2.List` must be
element-equal to some identity of `r1.List`. -/
def rosterEqual (r1 r2 : Roster) : Bool :=
  if r1.list.length ≠ r2.list.length then false
  else r2.list.all (fun p => r1.list.any (fun d => p == d))

/-- `intersectAttendees`: keep the members of `atts2`, in order, whose
canonical string occurs among the canonical strings of `atts1`
(service.go 885-902; the `min` computation there only sizes a buffer). -/
def intersectAttendees (atts1 atts2 : List Point) : List Point :=
  atts2.filter (fun p => decide (ptStr p ∈ atts1.map ptStr))

/-- `unionAttendies` (service.go 904-922): all of `atts1`, then the members
of `atts2` whose canonical string is not among those of `atts1`, sorted by
canonical point string.  `sort.Slice` is not stable; insertion sort agrees
with it whenever the keys are pairwise distinct, and on equal elements any
sorting of the list is the list itself. -/
def unionAttendies (atts1 atts2 : List Point) : List Point :=
  let na := atts1 ++ atts2.filter (fun p => decide (ptStr p ∉ atts1.map ptStr))
  List.insertionSort (fun p q => ptStr p ≤ ptStr q) na

/-- `unionRoster` (service.go 924-941): all of `r1.List`, then the members
of `r2.List` whose canonical identity string is not among those of
`r1.List`, sorted by canonical identity string. -/
def unionRoster (r1 r2 : Roster) : Roster :=
  let na := r1.list ++ r2.list.filter (fun s => decide (siStr s ∉ r1.list.map siStr))
  ⟨List.insertionSort (fun a b => siStr a ≤ siStr b) na⟩

/-- `VerifyMergeStatement` (service.go 850-882).  `sigOk` is the external
collective-signature verification `FinalStatement.Verify() == nil`.
The source calls `final.Verify()` first but on failure only logs
(lines 851-853), and its merge-list membership flag `found` is initialized
to `true` (line 869), so the subsequent `if !found` branch is dead code. -/
def verifyMergeStatement (sigOk : FinalStatement → Bool)
    (final mergeFinal : FinalStatement) : Nat :=
  let _localVerifies := sigOk final
  if mergeFinal.signature.length = 0 then popStatusMergeNonFinalized
  else if sigOk mergeFinal = false then popStatusMergeError
  else if final.desc.dateTime ≠ mergeFinal.desc.dateTime then popStatusMergeError
  else
    let found := final.desc.parties.foldl
      (fun acc party => if rosterEqual party.roster mergeFinal.desc.roster then true else acc)
      true
    if found = false then popStatusMergeError else popStatusOK

/-- The `PinRequest` message. -/
structure PinReq where
  pin : String
  public : Int
deriving DecidableEq, Repr

/-- `PinRequest` handler (service.go 126-139).  `freshPin` is the random
six-digit PIN the environment would mint.  The third component records
whether `save()` was invoked. -/
def pinRequest (freshPin : String) (sd : SaveData) (req : PinReq) :
    SaveData × RpcResult Unit × Bool :=
  if req.pin = "" then ({ sd with pin := freshPin }, .err .wrongPIN, false)
  else if req.pin ≠ sd.pin then (sd, .err .wrongPIN, false)
  else ({ sd with public := some req.public }, .ok (), true)

/-- The `StoreConfig` message. -/
structure StoreConfigReq where
  desc : PopDesc
  signature : Sig
deriving DecidableEq, Repr

/-- `StoreConfig` handler (service.go 142-168).  `schnorrOk` is the external
Schnorr verification of the organizer signature over the party hash.  The
source first rejects a nil roster pointer, which has no counterpart in this
value embedding.  On success it unconditionally stores a fresh
`FinalStatement` with no attendees and an empty signature, allocates the
party sync channels, and when sibling parties exist creates a merge meta
already containing the party itself. -/
def storeConfig (schnorrOk : Int → Hsh → Sig → Bool) (sd : SaveData)
    (req : StoreConfigReq) : SaveData × RpcResult Hsh :=
  match sd.public with
  | none => (sd, .err .internal)
  | some pub =>
    let hash := req.desc.hash
    if schnorrOk pub hash req.signature then
      let fs : FinalStatement :=
        { desc := req.desc, attendees := [], signature := [], merged := false }
      let mms :=
        if req.desc.parties.length > 0 then
          mapSet sd.mergeMetas hash { statementsMap := [(hash, fs)], distrib := false }
        else sd.mergeMetas
      ({ sd with
          finals := mapSet sd.finals hash fs
          syncMetas := keySet sd.syncMetas hash
          mergeMetas := mms }, .ok hash)
    else (sd, .err .internal)

/-- The incoming `CheckConfig` peer message. -/
structure CheckConfigMsg where
  popHash : Hsh
  attendees : List Point
deriving DecidableEq, Repr

/-- The `CheckConfigReply` peer message. -/
structure CheckConfigReplyM where
  popStatus : Nat
  popHash : Hsh
  attendees : List Point
deriving DecidableEq, Repr

/-- Peer-side `CheckConfig` handler (service.go 504-531).  The reply is
initialized with status `PopStatusOK` and empty attendees; the stored-party
lookup only happens when the `Finals` map is non-empty.  On a hit the stored
attendees are replaced by the intersection with the incoming list. -/
def checkConfig (sd : SaveData) (cc : CheckConfigMsg) :
    SaveData × CheckConfigReplyM :=
  let ccr : CheckConfigReplyM :=
    { popStatus := popStatusOK, popHash := cc.popHash, attendees := [] }
  if sd.finals.length > 0 then
    match mapGet sd.finals cc.popHash with
    | none => (sd, { ccr with popStatus := popStatusWrongHash })
    | some final =>
      let newAtts := intersectAttendees final.attendees cc.attendees
      let final1 := { final with attendees := newAtts }
      let sd1 := { sd with finals := mapSet sd.finals cc.popHash final1 }
      if newAtts.length = 0 then
        (sd1, { ccr with popStatus := popStatusNoAttendees })
      else
        (sd1, { ccr with popStatus := popStatusOK, attendees := newAtts })
  else (sd, ccr)

/-- The `FinalizeRequest` message. -/
structure FinalizeReq where
  descID : Hsh
  attendees : List Point
  signature : Sig
deriving DecidableEq, Repr

/-- The message signed by the organizer for a finalize request
(`FinalizeRequest.Hash`, struct.go 98-115): the description hash bytes
followed by the marshalled attendee keys. -/
def FinalizeReq.hashVal (r : FinalizeReq) : Hsh × List Point :=
  (r.descID, r.attendees)

/-- The reconciliation loop of `FinalizeRequest` (service.go 200-215).
For every roster member other than the caller, the coordinator sends a
`CheckConfig` and, when a `syncMeta` exists for the party, blocks on the
per-party reply slot.  `replies` supplies those deliveries in order:
`none` is a dropped (`nil`) delivery and aborts; `some r` is a reply with
status at least OK carrying attendees `r`, which the `CheckConfigReply`
handler has already intersected into the stored list (service.go 552)
before delivering.  An exhausted `replies` list stands for a slot that
never fires. -/
def reconLoop (syncPresent : Bool) :
    List ServerIdentity → List (Option (List Point)) → List Point →
    List Point × Bool
  | [], _, atts => (atts, true)
  | _ :: peers, replies, atts =>
    if syncPresent then
      match replies with
      | [] => (atts, false)
      | none :: _ => (atts, false)
      | some r :: rest => reconLoop syncPresent peers rest (intersectAttendees atts r)
    else reconLoop syncPresent peers replies atts

/-- `FinalizeRequest` handler (service.go 173-223) followed by
`signAndPropagateFinal` (258-316).  `schnorrOk` verifies the organizer
signature, `sigOk` is `FinalStatement.Verify() == nil`, and `signOracle`
is the BFT collective-signing protocol (`none` is its 60-second timeout;
it delivers the 64-byte signature, or an empty slice when the protocol
returns fewer bytes).  Failures of tree generation, protocol creation and
propagation transport are environmental error paths not modelled here.
The last component of the result records whether collective signing was
invoked. -/
def finalizeRequest (schnorrOk : Int → Hsh × List Point → Sig → Bool)
    (sigOk : FinalStatement → Bool) (signOracle : FinalStatement → Option Sig)
    (selfId : ServerIdentity) (replies : List (Option (List Point)))
    (sd : SaveData) (req : FinalizeReq) :
    SaveData × RpcResult FinalStatement × Bool :=
  match sd.public with
  | none => (sd, .err .internal, false)
  | some pub =>
    if schnorrOk pub req.hashVal req.signature = false then (sd, .err .internal, false)
    else
      match mapGet sd.finals req.descID with
      | none => (sd, .err .internal, false)
      | some final =>
        if sigOk final then (sd, .ok final, false)
        else
          let peers := final.desc.roster.list.filter (fun c => decide (c ≠ selfId))
          let syncPresent := decide (req.descID ∈ sd.syncMetas)
          let (atts, okLoop) := reconLoop syncPresent peers replies req.attendees
          let final1 := { final with attendees := atts }
          if okLoop = false then
            ({ sd with finals := mapSet sd.finals req.descID final1 },
              .err .otherFinals, false)
          else
            let final2 := { final1 with signature := [] }
            match signOracle final2 with
            | none =>
              ({ sd with finals := mapSet sd.finals req.descID final2 },
                .err .timeout, true)
            | some sig =>
              let final3 := { final2 with signature := sig }
              ({ sd with finals := mapSet sd.finals req.descID final3 },
                .ok final3, true)

/-! Helper lemmas about the map model. -/

theorem filter_self_idem {α : Type} (f : α → Bool) :
    ∀ l : List α, (l.filter f).filter f = l.filter f := by
  intro l
  induction l with
  | nil => rfl
  | cons x t ih => cases h : f x <;> simp [List.filter_cons, h, ih]

theorem mapSet_idem {β : Type} (m : List (Hsh × β)) (k : Hsh) (v : β) :
    mapSet (mapSet m k v) k v = mapSet m k v := by
  simp [mapSet, List.filter_cons, filter_self_idem]

theorem keySet_idem (m : List Hsh) (k : Hsh) :
    keySet (keySet m k) k = keySet m k := by
  simp [keySet, List.filter_cons, filter_self_idem]

theorem mapGet_mapSet {β : Type} (m : List (Hsh × β)) (k : Hsh) (v : β) :
    mapGet (mapSet m k v) k = some v := by
  simp [mapGet, mapSet, List.find?_cons_of_pos]

@[simp] theorem map_ptStr (l : List Point) : l.map ptStr = l := by
  induction l with
  | nil => rfl
  | cons x t ih => simp [ptStr, ih]

/-! Concrete fixtures used by counterexamples and witnesses. -/

/-- A one-conode party description. -/
def cDesc : PopDesc :=
  { name := "p", dateTime := "t", location := "l",
    roster := ⟨[⟨"a", 1⟩]⟩, parties := [] }

/-- A finalized (signed) statement for `cDesc`, with one attendee. -/
def cFS : FinalStatement :=
  { desc := cDesc, attendees := ["x"], signature := [1], merged := false }

/-- A linked service holding the signed statement `cFS` for `cDesc`. -/
def cSignedState : SaveData :=
  { pin := "", public := some 0, finals := [(cDesc.hash, cFS)],
    mergeMetas := [], syncMetas := [] }

/-- A freshly started service: no PIN minted, not linked, nothing stored. -/
def cEmptyState : SaveData :=
  { pin := "", public := none, finals := [], mergeMetas := [], syncMetas := [] }

/-- A linked service with nothing stored yet. -/
def cLinkedState : SaveData :=
  { pin := "42", public := some 0, finals := [], mergeMetas := [], syncMetas := [] }

/-- The state of `cLinkedState` after one successful StoreConfig of `cDesc`. -/
def cStoredOnce : SaveData :=
  { pin := "42", public := some 0,
    finals := [(cDesc.hash, { desc := cDesc, attendees := [], signature := [],
                              merged := false })],
    mergeMetas := [], syncMetas := [cDesc.hash] }

/-- A local statement listing only the roster `[⟨"a",1⟩]` among its sibling
parties, so a merge partner with roster `[⟨"b",2⟩]` is not in the merge list. -/
def cMergeLocal : FinalStatement :=
  { desc := { name := "n", dateTime := "t", location := "A",
              roster := ⟨[⟨"a", 1⟩]⟩,
              parties := [⟨"A", ⟨[⟨"a", 1⟩]⟩⟩] },
    attendees := [], signature := [1], merged := false }

/-- A merge partner whose roster `[⟨"b",2⟩]` is set-equal to no roster in
`cMergeLocal`-s merge list, carrying a non-empty signature. -/
def cMergeOther : FinalStatement :=
  { desc := { name := "n", dateTime := "t", location := "B",
              roster := ⟨[⟨"b", 2⟩]⟩, parties := [] },
    attendees := [], signature := [1], merged := false }

/-- Claim C1 (code bug): `VerifyMergeStatement` accepts a partner whose
roster is set-equal to no roster of the local merge list, because the
membership flag is initialized to `true` (service.go:869), making the
`if !found` rejection dead code; and with an oracle under which the local
signature does not verify it still answers OK, because a failing
`final.Verify()` is only logged (service.go:851-853).  The claim (and the
spec) demand `MergeError` in both situations. -/
theorem c1_code_eval :
    verifyMergeStatement (fun _ => true) cMergeLocal cMergeOther = popStatusOK
  ∧ rosterEqual (⟨[⟨"a", 1⟩]⟩ : Roster) cMergeOther.desc.roster = false
  ∧ verifyMergeStatement (fun fs => decide (fs.desc.location = "B"))
      cMergeLocal cMergeOther = popStatusOK
  ∧ decide (cMergeLocal.desc.location = "B") = false := by decide

/-- Claim C3 (code bug): a `CheckConfig` arriving at a service whose
`Finals` map is empty is answered with status `PopStatusOK` (the reply is
initialized to OK and the lookup is skipped, service.go:511-512), although
no final statement is stored under the incoming hash; the claim (and the
spec, backed by the reply documentation in struct.go) demand `WrongHash`
whenever no statement is stored under the hash. -/
theorem c3_code_eval :
    mapGet cEmptyState.finals [HashTok.str "h"] = none
  ∧ checkConfig cEmptyState { popHash := [HashTok.str "h"], attendees := ["x"] }
      = (cEmptyState,
         { popStatus := popStatusOK, popHash := [HashTok.str "h"], attendees := [] })
  ∧ popStatusOK ≠ popStatusWrongHash := by decide

/-- Claim C2 counterexample: the stored statement for `cDesc` carries the
non-empty signature `[1]` and attendees `["x"]`; a second successful
StoreConfig with the same description succeeds and resets the stored
statement to empty attendees and an empty signature — it is not left
unchanged. -/
theorem c2_counterexample :
    (mapGet cSignedState.finals cDesc.hash).map (fun fs => fs.signature) = some [1]
  ∧ (storeConfig (fun _ _ _ => true) cSignedState
       { desc := cDesc, signature := [] }).2 = .ok cDesc.hash
  ∧ (mapGet (storeConfig (fun _ _ _ => true) cSignedState
        { desc := cDesc, signature := [] }).1.finals cDesc.hash).map
      (fun fs => (fs.attendees, fs.signature)) = some ([], []) := by decide

/-- Claim C4 counterexample: `intersectAttendees` keeps every occurrence of
its second argument, so with the stored list `["x"]` and incoming
`["x","x"]` it returns `["x","x"]`, which is longer than the first
argument; applied by the `CheckConfig` handler this grows the stored
attendee list from one entry to two. -/
theorem c4_counterexample :
    intersectAttendees ["x"] ["x", "x"] = ["x", "x"]
  ∧ ¬ (intersectAttendees ["x"] ["x", "x"]).length ≤ (["x"] : List Point).length
  ∧ (mapGet (checkConfig cSignedState
        { popHash := cDesc.hash, attendees := ["x", "x"] }).1.finals cDesc.hash).map
      (fun fs => fs.attendees) = some ["x", "x"] := by decide

/-- Claim C7 counterexample: `unionAttendies` only filters the second list
against the strings of the first, never against itself, so duplicates
inside the second argument survive: the union of `[]` and `["x","x"]`
contains the point `"x"` twice, not exactly once. -/
theorem c7_counterexample :
    unionAttendies [] ["x", "x"] = ["x", "x"]
  ∧ (unionAttendies [] ["x", "x"]).count "x" = 2 := by
  have hu : unionAttendies [] ["x", "x"] = ["x", "x"] := by
    simp [unionAttendies, List.insertionSort, List.orderedInsert]
  exact ⟨hu, by rw [hu]; rfl⟩

/-- Claim C6: a `FinalizeRequest` that passes the link, organizer-signature
and lookup checks on a party whose stored final statement verifies is
answered with exactly that stored statement; the service state is
unchanged and collective signing is not invoked (service.go:191-194). -/
theorem c6_finalize_idempotent (schnorrOk : Int → Hsh × List Point → Sig → Bool)
    (sigOk : FinalStatement → Bool) (signOracle : FinalStatement → Option Sig)
    (selfId : ServerIdentity) (replies : List (Option (List Point)))
    (sd : SaveData) (req : FinalizeReq) (pub : Int) (fs : FinalStatement)
    (hpub : sd.public = some pub)
    (hsig : schnorrOk pub req.hashVal req.signature = true)
    (hfs : mapGet sd.finals req.descID = some fs)
    (hver : sigOk fs = true) :
    finalizeRequest schnorrOk sigOk signOracle selfId replies sd req
      = (sd, .ok fs, false) := by
  simp [finalizeRequest, hpub, hsig, hfs, hver]

/-- Witness for the idempotent-finalize theorem at the concrete signed
fixture. -/
theorem c6_finalize_idempotent_witness :
    finalizeRequest (fun _ _ _ => true) (fun _ => true) (fun _ => none)
      ⟨"a", 1⟩ [] cSignedState
      { descID := cDesc.hash, attendees := [], signature := [] }
      = (cSignedState, .ok cFS, false) :=
  c6_finalize_idempotent (fun _ _ _ => true) (fun _ => true) (fun _ => none)
    ⟨"a", 1⟩ [] cSignedState
    { descID := cDesc.hash, attendees := [], signature := [] } 0 cFS
    rfl rfl (by decide) rfl

/-- Claim C8: when the service holds a PIN, a `PinRequest` carrying exactly
that PIN binds the authorized public key and persists and replies ok, and a
`PinRequest` carrying a different non-empty PIN is answered WrongPIN
without binding anything (service.go:126-139). -/
theorem c8_pin_request (freshPin : String) (sd : SaveData) (req : PinReq)
    (hheld : sd.pin ≠ "") :
    (req.pin = sd.pin →
        pinRequest freshPin sd req
          = ({ sd with public := some req.public }, .ok (), true))
  ∧ (req.pin ≠ "" → req.pin ≠ sd.pin →
        pinRequest freshPin sd req = (sd, .err .wrongPIN, false)) := by
  constructor
  · intro he
    simp [pinRequest, he, hheld]
  · intro h1 h2
    simp [pinRequest, h1, h2]

/-- Witness for the PIN-binding theorem at a concrete held PIN. -/
theorem c8_pin_request_witness :
    pinRequest "000000" cLinkedState ⟨"42", 7⟩
      = ({ cLinkedState with public := some 7 }, .ok (), true) :=
  (c8_pin_request "000000" cLinkedState ⟨"42", 7⟩ (by decide)).1 rfl

/-- Claim C9: a `PinRequest` with a non-empty PIN different from the held
one fails atomically: the reply is WrongPIN, the whole state (PIN, linked
key, finals, merge metadata) is returned unchanged, and `save()` is not
invoked. -/
theorem c9_wrongpin_atomic (freshPin : String) (sd : SaveData) (req : PinReq)
    (h1 : req.pin ≠ "") (h2 : req.pin ≠ sd.pin) :
    pinRequest freshPin sd req = (sd, .err .wrongPIN, false) := by
  simp [pinRequest, h1, h2]

/-- Witness for the atomic-failure theorem at a concrete wrong PIN. -/
theorem c9_wrongpin_atomic_witness :
    pinRequest "000000" cLinkedState ⟨"1", 7⟩
      = (cLinkedState, .err .wrongPIN, false) :=
  c9_wrongpin_atomic "000000" cLinkedState ⟨"1", 7⟩ (by decide) (by decide)

/-- Claim C2 (amended): StoreConfig overwrites the stored statement
unconditionally — every successful call stores a fresh statement with no
attendees and an empty signature, signed or not (service.go:154) — and it
is idempotent at the state level: a second successful call with the same
description returns the same hash and leaves the state exactly as after
the first call. -/
theorem c2_storeconfig_idem (o : Int → Hsh → Sig → Bool) (sd sd1 : SaveData)
    (req : StoreConfigReq) (h : Hsh)
    (hc : storeConfig o sd req = (sd1, .ok h)) :
    storeConfig o sd1 req = (sd1, .ok h)
  ∧ mapGet sd1.finals h
      = some { desc := req.desc, attendees := [], signature := [], merged := false } := by
  cases hpub : sd.public with
  | none => simp [storeConfig, hpub] at hc
  | some pub =>
    by_cases hs : o pub req.desc.hash req.signature = true
    · have hres : storeConfig o sd req
        = ({ sd with
              finals := mapSet sd.finals req.desc.hash
                { desc := req.desc, attendees := [], signature := [], merged := false }
              syncMetas := keySet sd.syncMetas req.desc.hash
              mergeMetas :=
                if req.desc.parties.length > 0 then
                  mapSet sd.mergeMetas req.desc.hash
                    { statementsMap := [(req.desc.hash,
                        { desc := req.desc, attendees := [], signature := [],
                          merged := false })], distrib := false }
                else sd.mergeMetas }, .ok req.desc.hash) := by
        simp [storeConfig, hpub, hs]
      rw [hres] at hc
      have h1 := congrArg Prod.fst hc
      have h2 := congrArg Prod.snd hc
      simp only [Prod.fst, Prod.snd] at h1 h2
      injection h2 with h2
      subst h2
      subst h1
      constructor
      · by_cases hp : req.desc.parties.length > 0 <;>
          simp [storeConfig, hpub, hs, hp, mapSet_idem, keySet_idem]
      · exact mapGet_mapSet ..
    · simp [storeConfig, hpub, hs] at hc

/-- Witness for the StoreConfig idempotence theorem: a concrete second call
after a successful first call on a fresh linked service. -/
theorem c2_storeconfig_idem_witness :
    storeConfig (fun _ _ _ => true) cStoredOnce { desc := cDesc, signature := [] }
      = (cStoredOnce, .ok cDesc.hash) :=
  (c2_storeconfig_idem (fun _ _ _ => true) cLinkedState cStoredOnce
    { desc := cDesc, signature := [] } cDesc.hash (by decide)).1

/-- Claim C4 (amended): `intersectAttendees` returns a subset of both of
its arguments and a list no longer than its second argument; it is no
longer than its first argument provided the second is duplicate-free by
canonical string — hence the reconciliation updates of Finalize, which all
go through it, never grow `FS.Attendees` when the exchanged lists are
duplicate-free. -/
theorem c4_intersect_shrinks (a b : List Point) :
    intersectAttendees a b ⊆ a
  ∧ intersectAttendees a b ⊆ b
  ∧ (intersectAttendees a b).length ≤ b.length
  ∧ (b.Nodup → (intersectAttendees a b).length ≤ a.length) := by
  refine ⟨?_, ?_, ?_, ?_⟩
  · intro x hx
    simp only [intersectAttendees, List.mem_filter, decide_eq_true_eq, map_ptStr,
      ptStr_def] at hx
    exact hx.2
  · intro x hx
    exact List.filter_subset' _ hx
  · exact List.length_filter_le _ _
  · intro hb
    have hnd : (intersectAttendees a b).Nodup := hb.filter _
    have hsub : intersectAttendees a b ⊆ a := by
      intro x hx
      simp only [intersectAttendees, List.mem_filter, decide_eq_true_eq, map_ptStr,
        ptStr_def] at hx
      exact hx.2
    exact (List.subperm_of_subset hnd hsub).length_le

/-- Witness for the intersection-shrinking theorem on concrete
duplicate-free lists. -/
theorem c4_intersect_shrinks_witness :
    (intersectAttendees ["x", "y"] ["y"]).length ≤ (["x", "y"] : List Point).length :=
  (c4_intersect_shrinks ["x", "y"] ["y"]).2.2.2 (by decide)

/-- Rosters with permuted member lists have equal aggregate keys: addition
of the members' public keys is commutative. -/
theorem aggregate_perm {r1 r2 : Roster} (h : r1.list.Perm r2.list) :
    r1.aggregate = r2.aggregate := by
  unfold Roster.aggregate
  exact (h.map (fun s => s.public)).sum_eq

/-- The sibling-party hash tokens only depend on each party's location and
roster aggregate, so roster order inside siblings is irrelevant. -/
theorem partiesHash_congr : ∀ {l1 l2 : List ShortDesc},
    List.Forall₂ (fun q1 q2 : ShortDesc =>
      q1.location = q2.location ∧ q1.roster.list.Perm q2.roster.list) l1 l2 →
    partiesHash l1 = partiesHash l2 := by
  intro l1 l2 hf
  induction hf with
  | nil => rfl
  | @cons q1 q2 t1 t2 hpair htail ih =>
    simp only [partiesHash, hpair.1, aggregate_perm hpair.2, ih]

/-- Claim C5: the party hash commits only to the order-independent
aggregate key of each roster, so two descriptions differing only in the
order of their roster (and of each sibling roster) hash identically. -/
theorem c5_hash_roster_order (p1 p2 : PopDesc)
    (hn : p1.name = p2.name) (hd : p1.dateTime = p2.dateTime)
    (hl : p1.location = p2.location)
    (hr : p1.roster.list.Perm p2.roster.list)
    (hp : List.Forall₂ (fun q1 q2 : ShortDesc =>
        q1.location = q2.location ∧ q1.roster.list.Perm q2.roster.list)
      p1.parties p2.parties) :
    p1.hash = p2.hash := by
  simp only [PopDesc.hash, hn, hd, hl, aggregate_perm hr, partiesHash_congr hp]

/-- Two concrete two-conode descriptions differing only in roster order. -/
def cP1 : PopDesc :=
  { name := "n", dateTime := "t", location := "l",
    roster := ⟨[⟨"a", 1⟩, ⟨"b", 2⟩]⟩, parties := [] }

/-- The same description with the roster reversed. -/
def cP2 : PopDesc :=
  { name := "n", dateTime := "t", location := "l",
    roster := ⟨[⟨"b", 2⟩, ⟨"a", 1⟩]⟩, parties := [] }

/-- Witness for the hash-stability theorem on the concrete swapped pair. -/
theorem c5_hash_roster_order_witness : cP1.hash = cP2.hash :=
  c5_hash_roster_order cP1 cP2 rfl rfl rfl
    (by show ([⟨"a", 1⟩, ⟨"b", 2⟩] : List ServerIdentity).Perm [⟨"b", 2⟩, ⟨"a", 1⟩]
        exact List.Perm.swap _ _ _)
    List.Forall₂.nil

instance : IsTotal Point (fun p q => ptStr p ≤ ptStr q) :=
  ⟨fun a b => le_total (ptStr a) (ptStr b)⟩

instance : IsTrans Point (fun p q => ptStr p ≤ ptStr q) :=
  ⟨fun _ _ _ hab hbc => le_trans hab hbc⟩

instance : IsTotal ServerIdentity (fun a b => siStr a ≤ siStr b) :=
  ⟨fun a b => le_total (siStr a) (siStr b)⟩

instance : IsTrans ServerIdentity (fun a b => siStr a ≤ siStr b) :=
  ⟨fun _ _ _ hab hbc => le_trans hab hbc⟩

/-- Claim C7 (amended): on inputs that are duplicate-free by canonical
string, `unionAttendies` is exactly the deduplicated set-union sorted
ascending by canonical point string, and `unionRoster` is the set-union of
the identities deduplicated and sorted ascending by canonical identity
string; in general duplicates inside the first argument, and duplicates
inside the second argument that are absent from the first, survive. -/
theorem c7_union_spec (a b : List Point) (r1 r2 : Roster)
    (ha : a.Nodup) (hb : b.Nodup)
    (h1 : (r1.list.map siStr).Nodup) (h2 : (r2.list.map siStr).Nodup) :
    (unionAttendies a b).Nodup
  ∧ (∀ x, x ∈ unionAttendies a b ↔ x ∈ a ∨ x ∈ b)
  ∧ List.Sorted (fun p q => ptStr p ≤ ptStr q) (unionAttendies a b)
  ∧ ((unionRoster r1 r2).list.map siStr).Nodup
  ∧ (∀ t, t ∈ (unionRoster r1 r2).list.map siStr ↔
        t ∈ r1.list.map siStr ∨ t ∈ r2.list.map siStr)
  ∧ List.Sorted (fun s t => siStr s ≤ siStr t) (unionRoster r1 r2).list := by
  have hpermA := List.perm_insertionSort (fun p q : Point => ptStr p ≤ ptStr q)
    (a ++ b.filter (fun p => decide (ptStr p ∉ a.map ptStr)))
  have hpermR := List.perm_insertionSort (fun s t : ServerIdentity => siStr s ≤ siStr t)
    (r1.list ++ r2.list.filter (fun s => decide (siStr s ∉ r1.list.map siStr)))
  refine ⟨?_, ?_, ?_, ?_, ?_, ?_⟩
  · have hna : (a ++ b.filter (fun p => decide (ptStr p ∉ a.map ptStr))).Nodup := by
      rw [List.nodup_append]
      refine ⟨ha, hb.filter _, ?_⟩
      intro x hxa hxf
      simp only [List.mem_filter, decide_eq_true_eq, map_ptStr, ptStr_def] at hxf
      exact hxf.2 hxa
    exact hpermA.nodup_iff.mpr hna
  · intro x
    rw [show unionAttendies a b = List.insertionSort (fun p q => ptStr p ≤ ptStr q)
        (a ++ b.filter (fun p => decide (ptStr p ∉ a.map ptStr))) from rfl,
      hpermA.mem_iff]
    simp only [List.mem_append, List.mem_filter, decide_eq_true_eq, map_ptStr, ptStr_def]
    constructor
    · rintro (h | ⟨h, _⟩)
      · exact Or.inl h
      · exact Or.inr h
    · intro h
      by_cases hxa : x ∈ a
      · exact Or.inl hxa
      · rcases h with h | h
        · exact absurd h hxa
        · exact Or.inr ⟨h, hxa⟩
  · exact List.sorted_insertionSort _ _
  · have hnd : ((r1.list ++ r2.list.filter
        (fun s => decide (siStr s ∉ r1.list.map siStr))).map siStr).Nodup := by
      rw [List.map_append, List.nodup_append]
      refine ⟨h1, ?_, ?_⟩
      · exact h2.sublist ((List.filter_sublist _).map siStr)
      · intro t ht1 htf
        simp only [List.mem_map, List.mem_filter, decide_eq_true_eq] at htf
        obtain ⟨s, ⟨_, hsnot⟩, rfl⟩ := htf
        exact hsnot (List.mem_map.mp ht1)
    exact (hpermR.map siStr).nodup_iff.mpr hnd
  · intro t
    rw [show (unionRoster r1 r2).list
        = List.insertionSort (fun s t => siStr s ≤ siStr t)
            (r1.list ++ r2.list.filter (fun s => decide (siStr s ∉ r1.list.map siStr)))
        from rfl,
      (hpermR.map siStr).mem_iff, List.map_append, List.mem_append]
    constructor
    · rintro (h | h)
      · exact Or.inl h
      · simp only [List.mem_map, List.mem_filter, decide_eq_true_eq] at h
        obtain ⟨s, ⟨hs2, _⟩, rfl⟩ := h
        exact Or.inr (List.mem_map_of_mem siStr hs2)
    · intro h
      by_cases hta : t ∈ r1.list.map siStr
      · exact Or.inl hta
      · rcases h with h | h
        · exact absurd h hta
        · simp only [List.mem_map] at h
          obtain ⟨s, hs2, rfl⟩ := h
          refine Or.inr ?_
          simp only [List.mem_map, List.mem_filter, decide_eq_true_eq]
          exact ⟨s, ⟨hs2, fun hex => hta (List.mem_map.mpr hex)⟩, rfl⟩
  · exact List.sorted_insertionSort _ _

/-- Witness for the union-specification theorem on concrete duplicate-free
attendee lists and rosters. -/
theorem c7_union_spec_witness :
    (unionAttendies ["b", "a"] ["c", "a"]).Nodup :=
  (c7_union_spec ["b", "a"] ["c", "a"] ⟨[⟨"b", 2⟩]⟩ ⟨[⟨"a", 1⟩]⟩
    (by decide) (by decide) (by decide) (by decide)).1

/-- Claim C10: `Equal` holds exactly when the two member lists have equal
length and every identity of the second occurs in the first; it ignores
multiplicity, so on duplicate-free member lists it coincides with
member-set equality, while on lists with duplicates it can accept rosters
with different member sets. -/
theorem c10_equal_spec (r1 r2 : Roster) :
    (rosterEqual r1 r2 = true ↔
        (r1.list.length = r2.list.length ∧ ∀ p ∈ r2.list, ∃ d ∈ r1.list, p = d))
  ∧ (r1.list.Nodup → r2.list.Nodup →
        (rosterEqual r1 r2 = true ↔ ∀ x, x ∈ r1.list ↔ x ∈ r2.list))
  ∧ (rosterEqual ⟨[⟨"a", 1⟩, ⟨"b", 2⟩]⟩ ⟨[⟨"a", 1⟩, ⟨"a", 1⟩]⟩ = true
      ∧ (⟨"b", 2⟩ : ServerIdentity) ∈ (⟨[⟨"a", 1⟩, ⟨"b", 2⟩]⟩ : Roster).list
      ∧ (⟨"b", 2⟩ : ServerIdentity) ∉ (⟨[⟨"a", 1⟩, ⟨"a", 1⟩]⟩ : Roster).list) := by
  have hchar : rosterEqual r1 r2 = true ↔
      (r1.list.length = r2.list.length ∧ ∀ p ∈ r2.list, ∃ d ∈ r1.list, p = d) := by
    by_cases hlen : r1.list.length = r2.list.length
    · simp [rosterEqual, hlen, List.all_eq_true, List.any_eq_true, beq_iff_eq]
    · simp [rosterEqual, hlen]
  refine ⟨hchar, ?_, by decide⟩
  intro nd1 nd2
  rw [hchar]
  constructor
  · rintro ⟨hlen, hsub⟩
    have hsub' : r2.list ⊆ r1.list := by
      intro p hp
      obtain ⟨d, hd, rfl⟩ := hsub p hp
      exact hd
    have hperm : r2.list.Perm r1.list :=
      (List.subperm_of_subset nd2 hsub').perm_of_length_le (le_of_eq hlen)
    intro x
    exact (hperm.mem_iff).symm
  · intro hmem
    have hperm : r1.list.Perm r2.list :=
      (List.perm_ext_iff_of_nodup nd1 nd2).mpr hmem
    refine ⟨hperm.length_eq, ?_⟩
    intro p hp
    exact ⟨p, (hmem p).mpr hp, rfl⟩

/-- Witness for the roster-equality theorem: a concrete duplicate-free
roster is set-equal to itself. -/
theorem c10_equal_spec_witness :
    rosterEqual ⟨[⟨"a", 1⟩]⟩ ⟨[⟨"a", 1⟩]⟩ = true :=
  ((c10_equal_spec ⟨[⟨"a", 1⟩]⟩ ⟨[⟨"a", 1⟩]⟩).2.1 (by decide) (by decide)).mpr
    (fun _ => Iff.rfl)

end Pop
